import Mathlib

/-
  Verification of the constraint-synthesis core of the Arkworks seminar
  repository (circuits `age1`, `age2`, `poly` and the ElGamal encryption
  gadget) against its natural-language specification.

  The circuits are embedded shallowly: a prime field `F` is `ZMod p`, a
  synthesis pass is a function from the circuit's `Option`-typed values to a
  `SynthOutcome` recording whether synthesis aborted (error or panic), the
  satisfiability of the emitted constraints under the concrete assignment, and
  the ordered list of public-input values allocated.  Gadgets whose
  implementation lives in the external arkworks libraries (allocation,
  comparison, conditional equality, scalar multiplication, serialization) are
  modelled from the specification, as marked in their doc comments.
-/

namespace ArkSeminar

/-- The synthesis error taxonomy relevant to this repository: the only error
the circuits raise is `AssignmentMissing` (spec section 7). -/
inductive SynthesisError where
  | AssignmentMissing
deriving DecidableEq

/-- The three allocation kinds of the variable-allocation layer
(spec section 4.1 and `AllocationMode` at the `RandomnessVar` allocation). -/
inductive AllocationMode where
  | Constant
  | Input
  | Witness
deriving DecidableEq

/-- Outcome of one proving-time synthesis pass: a Rust panic, a propagated
`SynthesisError`, or completion with the satisfiability of the emitted
constraints under the concrete assignment together with the ordered list of
public-input values allocated during the pass. -/
inductive SynthOutcome (F : Type) where
  | panicked : SynthOutcome F
  | error : SynthesisError → SynthOutcome F
  | ok : Bool → List F → SynthOutcome F
deriving DecidableEq

/-- Modelled from the spec: `FpVar::new_witness` of ark-r1cs-std (not in this
repository).  Per section 4.1, Witness allocation at proving time invokes the
value provider and fails with `AssignmentMissing` when no concrete value is
available; the circuits' providers are `self.field.ok_or(AssignmentMissing)`. -/
def FpVar_new_witness {F : Type} (value : Option F) : Except SynthesisError F :=
  match value with
  | none => .error .AssignmentMissing
  | some v => .ok v

/-- Modelled from the spec: `FpVar::new_input` of ark-r1cs-std (not in this
repository).  Same proving-time semantics as witness allocation (section 4.1),
except that the allocated value is appended to the verifier-visible
public-input vector in allocation order (section 6). -/
def FpVar_new_input {F : Type} (pubs : List F) (value : Option F) :
    Except SynthesisError (F × List F) :=
  match value with
  | none => .error .AssignmentMissing
  | some v => .ok (v, pubs ++ [v])

/-- Modelled from the spec: `FpVar::new_constant` (section 4.1).  Constant
allocation takes a concrete value directly, never fails, and contributes
nothing to the public-input vector. -/
def FpVar_new_constant {F : Type} (c : F) : F := c

/-- Modelled from the spec: the comparison gadget contract of section 4.2,
`compare(a, b, strict)`, over the field's canonical integer representatives in
`[0, modulus)`: strict greater-than when `strict` is true, greater-or-equal
otherwise.  The gadget itself lives in ark-r1cs-std, not in this repository. -/
def compareGadget {p : ℕ} [NeZero p] (a b : ZMod p) (strict : Bool) : Bool :=
  if strict then decide (b.val < a.val) else decide (b.val ≤ a.val)

/-- Modelled from the spec: the `enforce_cmp` call of `AgeCircuit1` (section
4.2 describes statement 1 as a hard enforcement whose constraints are
satisfiable exactly when the strict greater-than relation holds). -/
def FpVar_enforce_cmp_gt {p : ℕ} [NeZero p] (a b : ZMod p) : Bool :=
  compareGadget a b true

/-- Modelled from the spec: the `is_cmp` call of `AgeCircuit2` (sections 4.2
and 4.3 describe statement 2 as producing the Boolean "age greater-or-equal
19" and routing it into the conditional gadget). -/
def FpVar_is_cmp_ge {p : ℕ} [NeZero p] (a b : ZMod p) : Bool :=
  compareGadget a b false

/-- Modelled from the spec: the conditional equality gadget of section 4.3;
the emitted constraint `cond * (lhs - rhs) = 0` is satisfied when the
condition is false, and forces `lhs = rhs` when the condition is true. -/
def conditional_enforce_equal {F : Type} [DecidableEq F] (lhs rhs : F) (cond : Bool) : Bool :=
  !cond || decide (lhs = rhs)

/-- Shallow embedding of `AgeCircuit1::generate_constraints` (age1.rs): a
witness allocation of `age`, the constant `19`, and one hard comparison
enforcement; no public input is allocated. -/
def AgeCircuit1_generate_constraints (p : ℕ) [NeZero p] (age : Option (ZMod p)) :
    SynthOutcome (ZMod p) :=
  match FpVar_new_witness age with
  | .error e => .error e
  | .ok age_var =>
    let age19_var : ZMod p := FpVar_new_constant ((19 : ℕ) : ZMod p)
    .ok (FpVar_enforce_cmp_gt age_var age19_var) []

/-- Shallow embedding of `AgeCircuit2::generate_constraints` (age2.rs): input
`age`, constant `19`, the comparison Boolean, input `c`, witnesses `a` and
`b`, and the conditional equality `c = a * b` gated on the Boolean. -/
def AgeCircuit2_generate_constraints (p : ℕ) [NeZero p]
    (age c a b : Option (ZMod p)) : SynthOutcome (ZMod p) :=
  match FpVar_new_input [] age with
  | .error e => .error e
  | .ok (age_var, pubs) =>
    let age19_var : ZMod p := FpVar_new_constant ((19 : ℕ) : ZMod p)
    let is_age_ge_19 := FpVar_is_cmp_ge age_var age19_var
    match FpVar_new_input pubs c with
    | .error e => .error e
    | .ok (c_var, pubs2) =>
      match FpVar_new_witness a with
      | .error e => .error e
      | .ok a_var =>
        match FpVar_new_witness b with
        | .error e => .error e
        | .ok b_var =>
          .ok (conditional_enforce_equal c_var (a_var * b_var) is_age_ge_19) pubs2

/-- The accumulation loop of `PolyCircuit::generate_constraints` (poly.rs):
for each coefficient, add `c * x_power` to the running result and multiply the
running power by `x`. -/
def polyEvalLoop {F : Type} [CommRing F] : List F → F → F → F → F
  | [], res, _, _ => res
  | c :: rest, res, x_power, x => polyEvalLoop rest (res + c * x_power) (x_power * x) x

/-- Shallow embedding of `PolyCircuit::generate_constraints` (poly.rs): the
coefficient vector is taken with an unguarded `unwrap` (a panic when `None`),
then witness `x` and public input `y` are allocated, the loop computes the
sum, and `y` is enforced equal to it. -/
def PolyCircuit_generate_constraints (p : ℕ) [NeZero p]
    (coeff : Option (List (ZMod p))) (x y : Option (ZMod p)) : SynthOutcome (ZMod p) :=
  match coeff with
  | none => .panicked
  | some cs =>
    match FpVar_new_witness x with
    | .error e => .error e
    | .ok x_var =>
      match FpVar_new_input [] y with
      | .error e => .error e
      | .ok (y_var, pubs) =>
        let res_var := polyEvalLoop cs (FpVar_new_constant 0) 1 x_var
        .ok (decide (y_var = res_var)) pubs

/-- Value of a little-endian bit sequence. -/
def bitsToNat : List Bool → ℕ
  | [] => 0
  | b :: rest => (cond b 1 0) + 2 * bitsToNat rest

/-- The `k` little-endian bits of `n`. -/
def natBitsLE : ℕ → ℕ → List Bool
  | 0, _ => []
  | k + 1, n => (decide (n % 2 = 1)) :: natBitsLE k (n / 2)

/-- Modelled from the spec: `UInt8::to_bits_le` of ark-r1cs-std (not in this
repository): the eight little-endian bits of a byte (section 4.5). -/
def UInt8_to_bits_le (byte : ℕ) : List Bool := natBitsLE 8 byte

/-- The `k` little-endian base-256 digits of `n`. -/
def natToBytesLE : ℕ → ℕ → List ℕ
  | 0, _ => []
  | k + 1, n => (n % 256) :: natToBytesLE k (n / 256)

/-- Modelled from the spec: `CanonicalSerialize::serialize_compressed` for a
scalar-field element (sections 4.5 and 6, not in this repository): the
canonical little-endian byte representation of the canonical integer
representative, of the fixed byte length of the scalar field. -/
def serialize_compressed (numBytes q : ℕ) [NeZero q] (r : ZMod q) : List ℕ :=
  natToBytesLE numBytes r.val

/-- Modelled from the spec: `CurveVar::scalar_mul_le` of ark-r1cs-std (not in
this repository): repeated conditional doubling-and-addition driven by the
bit sequence, least-significant bit first (section 4.5). -/
def scalar_mul_le {G : Type} [AddCommGroup G] (base : G) : List Bool → G
  | [] => 0
  | b :: rest => (if b then base else 0) + scalar_mul_le (base + base) rest

/-- The in-circuit ciphertext pair produced by the encryption gadget
(`OutputVar` of constraints.rs). -/
structure OutputVar (G : Type) where
  c1 : G
  c2 : G
deriving DecidableEq

/-- Modelled from the spec: `CurveVar::is_eq` (not in this repository), the
Boolean witnessing equality of two allocated group elements. -/
def GG_is_eq {G : Type} [DecidableEq G] (a b : G) : Bool := decide (a = b)

/-- Modelled from the spec: `Boolean::and` (not in this repository),
conjunction of two Boolean gadget values. -/
def Boolean_and (a b : Bool) : Bool := a && b

/-- Shallow embedding of `OutputVar::is_eq` (constraints.rs): the conjunction
of the component-wise equality Booleans of `c1` and `c2`. -/
def OutputVar_is_eq {G : Type} [DecidableEq G] (x y : OutputVar G) : Bool :=
  Boolean_and (GG_is_eq x.c1 y.c1) (GG_is_eq x.c2 y.c2)

/-- Shallow embedding of `ElGamalEncGadget::encrypt` (constraints.rs): flatten
the randomness bytes to a little-endian bit vector, compute
`s = randomness * pk` and `c1 = randomness * generator` by conditional
double-and-add over the bits, then `c2 = m + s`. -/
def ElGamalEncGadget_encrypt {G : Type} [AddCommGroup G]
    (generator message : G) (randomness : List ℕ) (public_key : G) : OutputVar G :=
  let bits := randomness.flatMap UInt8_to_bits_le
  let s := scalar_mul_le public_key bits
  let c1 := scalar_mul_le generator bits
  let c2 := message + s
  ⟨c1, c2⟩

/-- Modelled from the spec: the external (non-constraint) ElGamal encryption
`ElGamal::encrypt` (section 4.5; its file is not under src/):
`(c1, c2) = (r * G, M + r * PK)` with the scalar acting by repeated group
addition. -/
def ElGamal_encrypt {G : Type} [AddCommGroup G]
    (generator message public_key : G) (r : ℕ) : G × G :=
  (r • generator, message + r • public_key)

/-- Modelled from the spec: `UInt8::new_witness_vec` (section 4.1, byte-wise
allocation; not in this repository).  Every byte value is concretely supplied
by the caller, so allocation succeeds. -/
def UInt8_new_witness_vec (bytes : List ℕ) : Except SynthesisError (List ℕ) :=
  .ok bytes

/-- Modelled from the spec: `UInt8::new_input_vec` (section 4.1, byte-wise
allocation; not in this repository).  Every byte value is concretely supplied
by the caller, so allocation succeeds. -/
def UInt8_new_input_vec (bytes : List ℕ) : Except SynthesisError (List ℕ) :=
  .ok bytes

/-- Modelled from the spec: `UInt8::constant_vec` (section 4.1). -/
def UInt8_constant_vec (bytes : List ℕ) : List ℕ := bytes

/-- Shallow embedding of `RandomnessVar::new_variable` (constraints.rs): the
value provider's result is taken with `unwrap_or(zero)` — a failed provider is
silently replaced by the zero scalar — the scalar is serialized to canonical
bytes, and the bytes are allocated in the requested mode. -/
def RandomnessVar_new_variable (numBytes q : ℕ) [NeZero q]
    (mode : AllocationMode) (f : Except SynthesisError (ZMod q)) :
    Except SynthesisError (List ℕ) :=
  let scalar : ZMod q := match f with | .ok v => v | .error _ => 0
  let r := serialize_compressed numBytes q scalar
  match mode with
  | .Constant => .ok (UInt8_constant_vec r)
  | .Input => UInt8_new_input_vec r
  | .Witness => UInt8_new_witness_vec r

/-- The little-endian value of a concatenation of bit lists. -/
theorem bitsToNat_append (l1 l2 : List Bool) :
    bitsToNat (l1 ++ l2) = bitsToNat l1 + 2 ^ l1.length * bitsToNat l2 := by
  induction l1 with
  | nil => simp [bitsToNat]
  | cons b r ih =>
    simp only [List.cons_append, bitsToNat, List.length_cons, List.append_eq]
    rw [ih, pow_succ]
    ring

/-- `natBitsLE k n` recovers `n` modulo `2 ^ k`. -/
theorem bitsToNat_natBitsLE (k : ℕ) : ∀ n : ℕ, bitsToNat (natBitsLE k n) = n % 2 ^ k := by
  induction k with
  | zero => intro n; simp [natBitsLE, bitsToNat, Nat.mod_one]
  | succ k ih =>
    intro n
    have hmul : n % (2 * 2 ^ k) = n % 2 + 2 * (n / 2 % 2 ^ k) := Nat.mod_mul
    simp only [natBitsLE, bitsToNat, ih]
    rcases Nat.mod_two_eq_zero_or_one n with h | h <;>
      simp [h, pow_succ, mul_comm (2 ^ k) 2, hmul]

/-- `natBitsLE` always produces exactly `k` bits. -/
theorem natBitsLE_length (k : ℕ) : ∀ n : ℕ, (natBitsLE k n).length = k := by
  induction k with
  | zero => intro n; simp [natBitsLE]
  | succ k ih => intro n; simp [natBitsLE, ih]

/-- Flattening the little-endian base-256 digits byte-by-byte into bits
recovers the original value modulo `2 ^ (8 * k)`. -/
theorem bitsToNat_flatten_bytes (k : ℕ) :
    ∀ n : ℕ, bitsToNat ((natToBytesLE k n).flatMap UInt8_to_bits_le) = n % 2 ^ (8 * k) := by
  induction k with
  | zero => intro n; simp [natToBytesLE, bitsToNat, Nat.mod_one]
  | succ k ih =>
    intro n
    have hmul : n % (256 * 2 ^ (8 * k)) = n % 256 + 256 * (n / 256 % 2 ^ (8 * k)) :=
      Nat.mod_mul
    have hpow : 2 ^ (8 * (k + 1)) = 256 * 2 ^ (8 * k) := by
      rw [Nat.mul_succ, pow_add]; ring
    simp only [natToBytesLE, List.flatMap_cons, bitsToNat_append, ih,
      UInt8_to_bits_le, bitsToNat_natBitsLE, natBitsLE_length, hpow, hmul]
    have h256 : n % 256 % 2 ^ 8 = n % 256 := Nat.mod_eq_of_lt (by omega)
    omega

/-- The conditional double-and-add loop computes the little-endian bit value
acting on the base point. -/
theorem scalar_mul_le_eq {G : Type} [AddCommGroup G] (bits : List Bool) :
    ∀ base : G, scalar_mul_le base bits = bitsToNat bits • base := by
  induction bits with
  | nil => intro base; simp [scalar_mul_le, bitsToNat]
  | cons b rest ih =>
    intro base
    have hdouble : base + base = (2 : ℕ) • base := (two_nsmul base).symm
    simp only [scalar_mul_le, ih, bitsToNat, hdouble, ← mul_nsmul, add_nsmul]
    cases b <;> simp [mul_comm]

/-- The accumulation loop of the polynomial circuit computes
`res + x_power * Σ coeff_i * x ^ i`. -/
theorem polyEvalLoop_eq {F : Type} [CommRing F] (cs : List F) :
    ∀ res x_power x : F,
      polyEvalLoop cs res x_power x =
        res + x_power * ∑ i ∈ Finset.range cs.length, cs.getD i 0 * x ^ i := by
  induction cs with
  | nil => intro res x_power x; simp [polyEvalLoop]
  | cons c rest ih =>
    intro res x_power x
    rw [polyEvalLoop, ih, List.length_cons, Finset.sum_range_succ']
    simp only [List.getD_cons_succ, List.getD_cons_zero, pow_zero, pow_succ,
      ← mul_assoc]
    rw [← Finset.sum_mul]
    ring

/-- Claim C1: for `AgeCircuit1` the emitted constraint system is a hard strict
enforcement over canonical integer representatives: with `age = 20` the
constraints are satisfiable (with an empty public-input vector), and with
`age = 19` they are unsatisfiable, because `age > 19` strictly is required. -/
theorem age1_strict_threshold (p : ℕ) [NeZero p] (hp : 20 < p) :
    AgeCircuit1_generate_constraints p (some ((20 : ℕ) : ZMod p)) = .ok true [] ∧
    AgeCircuit1_generate_constraints p (some ((19 : ℕ) : ZMod p)) = .ok false [] := by
  have e19 : ((19 : ZMod p)) = ((19 : ℕ) : ZMod p) := by push_cast; rfl
  have e20 : ((20 : ZMod p)) = ((20 : ℕ) : ZMod p) := by push_cast; rfl
  have h19 : ((19 : ZMod p)).val = 19 := by
    rw [e19]; exact ZMod.val_natCast_of_lt (by omega)
  have h20 : ((20 : ZMod p)).val = 20 := by
    rw [e20]; exact ZMod.val_natCast_of_lt hp
  constructor <;>
    simp [AgeCircuit1_generate_constraints, FpVar_new_witness, FpVar_new_constant,
      FpVar_enforce_cmp_gt, compareGadget, h19, h20]

/-- Witness for C1 at the field `ZMod 23`. -/
theorem age1_strict_threshold_witness :
    AgeCircuit1_generate_constraints 23 (some ((20 : ℕ) : ZMod 23)) = .ok true [] ∧
    AgeCircuit1_generate_constraints 23 (some ((19 : ℕ) : ZMod 23)) = .ok false [] :=
  age1_strict_threshold 23 (by norm_num)

/-- Claim C4: for `AgeCircuit2` with all values supplied, the constraint
system is satisfiable if and only if `age < 19` over canonical integer
representatives or `c = a * b` in the field: a false condition Boolean leaves
`c` unconstrained, a true one forces `c = a * b`. -/
theorem age2_conditional_product_sat (p : ℕ) [NeZero p] (hp : 19 < p)
    (age c a b : ZMod p) :
    AgeCircuit2_generate_constraints p (some age) (some c) (some a) (some b)
      = .ok true [age, c] ↔ (age.val < 19 ∨ c = a * b) := by
  have e19 : ((19 : ZMod p)) = ((19 : ℕ) : ZMod p) := by push_cast; rfl
  have h19 : ((19 : ZMod p)).val = 19 := by
    rw [e19]; exact ZMod.val_natCast_of_lt hp
  simp [AgeCircuit2_generate_constraints, FpVar_new_input, FpVar_new_witness,
    FpVar_new_constant, FpVar_is_cmp_ge, compareGadget, conditional_enforce_equal,
    h19, Nat.not_le, or_comm]

/-- Witness for C4 at `ZMod 23` with `age = 20, c = 8, a = 2, b = 4`. -/
theorem age2_conditional_product_sat_witness :
    AgeCircuit2_generate_constraints 23 (some 20) (some 8) (some 2) (some 4)
      = .ok true [20, 8] ↔ ((20 : ZMod 23).val < 19 ∨ (8 : ZMod 23) = 2 * 4) :=
  age2_conditional_product_sat 23 (by norm_num) 20 8 2 4

/-- Claim C5: for `PolyCircuit` with all values supplied, the value enforced
against `y` is `Σ coeff_i * x ^ i` (index `i` being the degree-`i` term), for
coefficients `[5, 1, 0, 1]` and `x = 3` that value is `35`, and the system is
satisfiable exactly when `y` equals the sum, so any `y ≠ 35` is unsatisfiable
there. -/
theorem poly_eval_spec (p : ℕ) [NeZero p] (cs : List (ZMod p)) (xv yv : ZMod p) :
    (polyEvalLoop cs (0 : ZMod p) 1 xv
      = ∑ i ∈ Finset.range cs.length, cs.getD i 0 * xv ^ i) ∧
    (PolyCircuit_generate_constraints p (some cs) (some xv) (some yv)
      = .ok (decide (yv = ∑ i ∈ Finset.range cs.length, cs.getD i 0 * xv ^ i)) [yv]) ∧
    polyEvalLoop [(5 : ZMod p), 1, 0, 1] 0 1 (3 : ZMod p) = 35 ∧
    (∀ y2 : ZMod p, y2 ≠ 35 →
      PolyCircuit_generate_constraints p (some [5, 1, 0, 1]) (some 3) (some y2)
        = .ok false [y2]) := by
  have hsum : ∀ ds : List (ZMod p), ∀ x0 : ZMod p,
      polyEvalLoop ds (0 : ZMod p) 1 x0
        = ∑ i ∈ Finset.range ds.length, ds.getD i 0 * x0 ^ i := by
    intro ds x0
    rw [polyEvalLoop_eq]
    ring
  have h35 : polyEvalLoop [(5 : ZMod p), 1, 0, 1] 0 1 (3 : ZMod p) = 35 := by
    simp [polyEvalLoop]
    norm_num
  refine ⟨hsum cs xv, ?_, h35, ?_⟩
  · simp [PolyCircuit_generate_constraints, FpVar_new_witness, FpVar_new_input,
      FpVar_new_constant, hsum]
  · intro y2 hy2
    simp [PolyCircuit_generate_constraints, FpVar_new_witness, FpVar_new_input,
      FpVar_new_constant, h35, hy2]

/-- Witness for C5 at `ZMod 23` with coefficients `[5, 1, 0, 1]`, `x = 3`,
`y = 35`. -/
theorem poly_eval_spec_witness :
    (polyEvalLoop [(5 : ZMod 23), 1, 0, 1] (0 : ZMod 23) 1 3
      = ∑ i ∈ Finset.range ([(5 : ZMod 23), 1, 0, 1]).length,
          ([(5 : ZMod 23), 1, 0, 1]).getD i 0 * (3 : ZMod 23) ^ i) ∧
    (PolyCircuit_generate_constraints 23 (some [5, 1, 0, 1]) (some 3) (some 35)
      = .ok (decide ((35 : ZMod 23) = ∑ i ∈ Finset.range ([(5 : ZMod 23), 1, 0, 1]).length,
          ([(5 : ZMod 23), 1, 0, 1]).getD i 0 * (3 : ZMod 23) ^ i)) [35]) ∧
    polyEvalLoop [(5 : ZMod 23), 1, 0, 1] 0 1 (3 : ZMod 23) = 35 ∧
    (∀ y2 : ZMod 23, y2 ≠ 35 →
      PolyCircuit_generate_constraints 23 (some [5, 1, 0, 1]) (some 3) (some y2)
        = .ok false [y2]) :=
  poly_eval_spec 23 [5, 1, 0, 1] 3 35

/-- Claim C6: for `PolyCircuit` with an empty coefficient sequence the
enforced sum is exactly zero, so the system is satisfiable if and only if the
public input `y` is the field's zero element. -/
theorem poly_empty_coeff_zero (p : ℕ) [NeZero p] (xv yv : ZMod p) :
    PolyCircuit_generate_constraints p (some []) (some xv) (some yv)
      = .ok (decide (yv = 0)) [yv] ∧
    (PolyCircuit_generate_constraints p (some []) (some xv) (some yv)
      = .ok true [yv] ↔ yv = 0) := by
  constructor <;>
    simp [PolyCircuit_generate_constraints, FpVar_new_witness, FpVar_new_input,
      FpVar_new_constant, polyEvalLoop]

/-- Witness for C6 at `ZMod 23` with `x = 3`, `y = 0`. -/
theorem poly_empty_coeff_zero_witness :
    PolyCircuit_generate_constraints 23 (some []) (some 3) (some 0)
      = .ok (decide ((0 : ZMod 23) = 0)) [0] ∧
    (PolyCircuit_generate_constraints 23 (some []) (some 3) (some 0)
      = .ok true [0] ↔ (0 : ZMod 23) = 0) :=
  poly_empty_coeff_zero 23 3 0

/-- Claim C7: comparing a variable against itself resolves strict
greater-than to false and greater-or-equal to true, under the canonical
integer-representative ordering. -/
theorem compare_self_resolution (p : ℕ) [NeZero p] (a : ZMod p) :
    compareGadget a a true = false ∧ compareGadget a a false = true := by
  simp [compareGadget]

/-- Witness for C7 at `ZMod 23` with `a = 5`. -/
theorem compare_self_resolution_witness :
    compareGadget (5 : ZMod 23) 5 true = false ∧
    compareGadget (5 : ZMod 23) 5 false = true :=
  compare_self_resolution 23 5

/-- Claim C8: `OutputVar::is_eq` returns true if and only if both ciphertext
components are equal; equality of only one component never suffices. -/
theorem outputvar_is_eq_componentwise (G : Type) [DecidableEq G]
    (x y : OutputVar G) :
    OutputVar_is_eq x y = true ↔ (x.c1 = y.c1 ∧ x.c2 = y.c2) := by
  simp [OutputVar_is_eq, GG_is_eq, Boolean_and]

/-- Claim C9: `AgeCircuit2` allocates its public inputs in the order `age`
first, then `c`, so the verifier-visible public-input vector is exactly
`[age, c]`. -/
theorem age2_public_input_order (p : ℕ) [NeZero p] (age c a b : ZMod p) :
    ∃ sat : Bool,
      AgeCircuit2_generate_constraints p (some age) (some c) (some a) (some b)
        = .ok sat [age, c] :=
  ⟨_, rfl⟩

/-- Witness for C9 at `ZMod 23` with `age = 20, c = 8, a = 2, b = 4`. -/
theorem age2_public_input_order_witness :
    ∃ sat : Bool,
      AgeCircuit2_generate_constraints 23 (some 20) (some 8) (some 2) (some 4)
        = .ok sat [20, 8] :=
  age2_public_input_order 23 20 8 2 4

/-- Claim C10: `PolyCircuit::generate_constraints` panics (it does not return
a `SynthesisError`) when the coefficient vector is `None`, unlike the
`AssignmentMissing` handling of the witness `x` and public input `y`; when the
coefficient vector is present the panicking branch is unreachable. -/
theorem poly_none_coeff_panics (p : ℕ) [NeZero p] :
    (∀ x y : Option (ZMod p), PolyCircuit_generate_constraints p none x y = .panicked) ∧
    (∀ cs : List (ZMod p), ∀ x y,
      PolyCircuit_generate_constraints p (some cs) x y ≠ .panicked) ∧
    (∀ cs : List (ZMod p), ∀ y,
      PolyCircuit_generate_constraints p (some cs) none y = .error .AssignmentMissing) ∧
    (∀ cs : List (ZMod p), ∀ xv : ZMod p,
      PolyCircuit_generate_constraints p (some cs) (some xv) none
        = .error .AssignmentMissing) := by
  refine ⟨fun x y => rfl, ?_, fun cs y => rfl, fun cs xv => rfl⟩
  intro cs x y h
  cases x with
  | none => simp [PolyCircuit_generate_constraints, FpVar_new_witness] at h
  | some xv =>
    cases y with
    | none => simp [PolyCircuit_generate_constraints, FpVar_new_witness, FpVar_new_input] at h
    | some yv => simp [PolyCircuit_generate_constraints, FpVar_new_witness, FpVar_new_input] at h

/-- Witness for C10 at `ZMod 23`. -/
theorem poly_none_coeff_panics_witness :
    PolyCircuit_generate_constraints 23 none (some 3) (some 35) = .panicked ∧
    PolyCircuit_generate_constraints 23 (some [5, 1, 0, 1]) (some 3) (some 35) ≠ .panicked ∧
    PolyCircuit_generate_constraints 23 (some [5, 1, 0, 1]) none (some 35)
      = .error .AssignmentMissing ∧
    PolyCircuit_generate_constraints 23 (some [5, 1, 0, 1]) (some 3) none
      = .error .AssignmentMissing := by
  obtain ⟨h1, h2, h3, h4⟩ := poly_none_coeff_panics 23
  exact ⟨h1 _ _, h2 _ _ _, h3 _ _, h4 _ _⟩

/-- Claim C3 counterexample: allocating a `RandomnessVar` at proving time
with a failing value provider does not fail with `AssignmentMissing`; the
failed provider is replaced by the zero scalar (`unwrap_or(zero)` in
`RandomnessVar::new_variable`) and allocation succeeds with the serialized
zero bytes. -/
theorem randomness_alloc_missing_succeeds :
    RandomnessVar_new_variable 4 7 .Witness (.error .AssignmentMissing)
      = .ok [0, 0, 0, 0] ∧
    RandomnessVar_new_variable 4 7 .Witness (.error .AssignmentMissing)
      ≠ .error .AssignmentMissing := by
  have h0 : RandomnessVar_new_variable 4 7 AllocationMode.Witness
      (Except.error SynthesisError.AssignmentMissing) = Except.ok [0, 0, 0, 0] := rfl
  refine ⟨h0, ?_⟩
  rw [h0]
  exact fun h => Except.noConfusion h

/-- Claim C3 (amended): every `FpVar` Witness- or PublicInput-kind allocation
whose value provider returns no concrete value fails with `AssignmentMissing`
and aborts the circuit's synthesis pass; the byte-oriented `RandomnessVar`
allocation, however, never fails — a failing provider is silently replaced by
the zero scalar, whose serialized bytes are allocated successfully. -/
theorem alloc_missing_value_semantics (p q numBytes : ℕ) [NeZero p] [NeZero q] :
    FpVar_new_witness (none : Option (ZMod p)) = .error .AssignmentMissing ∧
    (∀ pubs : List (ZMod p), FpVar_new_input pubs none = .error .AssignmentMissing) ∧
    AgeCircuit1_generate_constraints p none = .error .AssignmentMissing ∧
    AgeCircuit2_generate_constraints p none none none none
      = .error .AssignmentMissing ∧
    (∀ (mode : AllocationMode) (f : Except SynthesisError (ZMod q)),
      ∃ bytes : List ℕ, RandomnessVar_new_variable numBytes q mode f = .ok bytes) := by
  refine ⟨rfl, fun pubs => rfl, rfl, rfl, ?_⟩
  intro mode f
  cases mode <;> exact ⟨_, rfl⟩

/-- Witness for the amended C3 at `ZMod 23` (circuit field) and `ZMod 7`
(scalar field, four serialized bytes). -/
theorem alloc_missing_value_semantics_witness :
    FpVar_new_witness (none : Option (ZMod 23)) = .error .AssignmentMissing ∧
    FpVar_new_input ([] : List (ZMod 23)) none = .error .AssignmentMissing ∧
    AgeCircuit1_generate_constraints 23 none = .error .AssignmentMissing ∧
    (∃ bytes : List ℕ,
      RandomnessVar_new_variable 4 7 .Witness (.error .AssignmentMissing) = .ok bytes) := by
  obtain ⟨h1, h2, h3, _, h5⟩ := alloc_missing_value_semantics 23 7 4
  exact ⟨h1, h2 _, h3, h5 _ _⟩

/-- Claim C2: the ciphertext pair produced in-circuit by
`ElGamalEncGadget::encrypt` from the serialized randomness equals,
coordinate-wise, the ciphertext of the external ElGamal encryption
`(r * G, M + r * PK)`, and the equality enforcement between the two is
satisfied. -/
theorem elgamal_gadget_refines (G : Type) [AddCommGroup G] [DecidableEq G]
    (numBytes q : ℕ) [NeZero q] (generator message public_key : G) (r : ZMod q)
    (hq : q ≤ 2 ^ (8 * numBytes)) :
    (ElGamalEncGadget_encrypt generator message
        (serialize_compressed numBytes q r) public_key).c1
      = (ElGamal_encrypt generator message public_key r.val).1 ∧
    (ElGamalEncGadget_encrypt generator message
        (serialize_compressed numBytes q r) public_key).c2
      = (ElGamal_encrypt generator message public_key r.val).2 ∧
    OutputVar_is_eq
      (ElGamalEncGadget_encrypt generator message
        (serialize_compressed numBytes q r) public_key)
      ⟨(ElGamal_encrypt generator message public_key r.val).1,
        (ElGamal_encrypt generator message public_key r.val).2⟩ = true := by
  have hval : bitsToNat ((serialize_compressed numBytes q r).flatMap UInt8_to_bits_le)
      = r.val := by
    rw [serialize_compressed, bitsToNat_flatten_bytes]
    exact Nat.mod_eq_of_lt (lt_of_lt_of_le (ZMod.val_lt r) hq)
  have hc1 : (ElGamalEncGadget_encrypt generator message
      (serialize_compressed numBytes q r) public_key).c1
      = (ElGamal_encrypt generator message public_key r.val).1 := by
    simp [ElGamalEncGadget_encrypt, ElGamal_encrypt, scalar_mul_le_eq, hval]
  have hc2 : (ElGamalEncGadget_encrypt generator message
      (serialize_compressed numBytes q r) public_key).c2
      = (ElGamal_encrypt generator message public_key r.val).2 := by
    simp [ElGamalEncGadget_encrypt, ElGamal_encrypt, scalar_mul_le_eq, hval]
  refine ⟨hc1, hc2, ?_⟩
  simp [OutputVar_is_eq, GG_is_eq, Boolean_and, hc1, hc2]

/-- Witness for C2 over the additive group `ℤ` with a one-byte scalar field
`ZMod 7`, `G = 2`, `M = 5`, `PK = 3`, `r = 3`. -/
theorem elgamal_gadget_refines_witness :
    (ElGamalEncGadget_encrypt (2 : ℤ) 5
        (serialize_compressed 1 7 3) 3).c1
      = (ElGamal_encrypt (2 : ℤ) 5 3 (3 : ZMod 7).val).1 ∧
    (ElGamalEncGadget_encrypt (2 : ℤ) 5
        (serialize_compressed 1 7 3) 3).c2
      = (ElGamal_encrypt (2 : ℤ) 5 3 (3 : ZMod 7).val).2 ∧
    OutputVar_is_eq
      (ElGamalEncGadget_encrypt (2 : ℤ) 5
        (serialize_compressed 1 7 3) 3)
      ⟨(ElGamal_encrypt (2 : ℤ) 5 3 (3 : ZMod 7).val).1,
        (ElGamal_encrypt (2 : ℤ) 5 3 (3 : ZMod 7).val).2⟩ = true :=
  elgamal_gadget_refines ℤ 1 7 2 5 3 3 (by norm_num)

end ArkSeminar
